import Mathlib

/-!
Verification development for the real-time voice streaming pipeline of the
reminiscence-therapy application.  The definitions below are shallow
embeddings of the TypeScript/JavaScript source:

* `floatTo16BitPCM` / `int16Store` — the audio-worklet Frame Encoder
  (`PCMAudioProcessor.floatTo16BitPCM` plus the `Int16Array` store semantics).
* `resample` — `WebAudioRecorder.resample` (linear-interpolation resampler).
* `EngineState` with `enqueue` / `scheduleBuffer` / `startPlayback` /
  `clear` / `isActive` — the web Playback Scheduler
  (`WebAudioPlaybackEngine` in `audioPlayback.ts`).
* `VSession` with `handleMessage` / `connect` / `sendPhotoChange` and
  `buildPhotoDescription` — the Session State Machine (`useVoiceSession`).

Machine arithmetic is modelled over `ℚ` (the JavaScript doubles of the
source, idealised as exact rationals) and `ℤ` (PCM16 samples), with the
16-bit store written out explicitly as truncation followed by a wrap into
the signed 16-bit range; JavaScript `Math.round q` is `⌊q + 1/2⌋` and
`Math.trunc` is truncation toward zero.
-/

namespace VoicePipeline

/-- JavaScript `Math.round`: round to nearest, ties toward positive infinity,
which is `⌊q + 1/2⌋`. -/
def jsRound (q : ℚ) : ℤ := ⌊q + 1/2⌋

/-- JavaScript `ToIntegerOrInfinity` truncation toward zero, as used when a
number is stored into an `Int16Array`. -/
def ratTrunc (q : ℚ) : ℤ := if q < 0 then ⌈q⌉ else ⌊q⌋

/-- Storing an arbitrary (already truncated) number into an `Int16Array`
slot: wrap modulo 2^16 into the signed range [-32768, 32767]. -/
def int16Store (q : ℚ) : ℤ := (ratTrunc q + 32768) % 65536 - 32768

/-- Frame Encoder conversion, from `PCMAudioProcessor.floatTo16BitPCM`:
clamp the float sample to [-1, 1], then scale asymmetrically
(`s < 0 ? s * 0x8000 : s * 0x7FFF`).  The result is still a number; the
caller stores it into an `Int16Array` (see `int16Store`). -/
def floatTo16BitPCM (float32 : ℚ) : ℚ :=
  let s := max (-1 : ℚ) (min 1 float32)
  if s < 0 then s * 32768 else s * 32767

/-- Loop body of `WebAudioRecorder.resample`: linear interpolation of output
sample `i` at ratio `source/target`, with `Math.round` and end-of-buffer
clamping.  Indexing `input[k]` is modelled with `List.getD` (the source
only reads in-range indices). -/
def resampleOut (input : List ℤ) (ratio : ℚ) (i : ℕ) : ℤ :=
  let srcIndex : ℚ := (i : ℚ) * ratio
  let srcIndexFloor : ℤ := ⌊srcIndex⌋
  let srcIndexCeil : ℤ := min (srcIndexFloor + 1) ((input.length : ℤ) - 1)
  let t : ℚ := srcIndex - (srcIndexFloor : ℚ)
  jsRound ((input.getD srcIndexFloor.toNat 0 : ℚ) * (1 - t)
    + (input.getD srcIndexCeil.toNat 0 : ℚ) * t)

/-- Resampler, from `WebAudioRecorder.resample`: identity fast path when the
rates agree, otherwise the interpolation loop `resampleOut` over
`floor(length / ratio)` output indices. -/
def resample (input : List ℤ) (sourceSampleRate targetSampleRate : ℕ) : List ℤ :=
  if sourceSampleRate = targetSampleRate then input
  else
    let ratio : ℚ := (sourceSampleRate : ℚ) / (targetSampleRate : ℚ)
    let outputLength : ℕ := (⌊(input.length : ℚ) / ratio⌋).toNat
    (List.range outputLength).map (resampleOut input ratio)

/-- Resampler as the specification words it: output length
`floor(input length / ratio)` (with `ratio = source/target`, this is the
natural-number division `length * target / source`), and output sample `i`
is the round-to-nearest linear interpolation between the input samples at
index `floor(i * ratio)` and `min(floor(i * ratio) + 1, length - 1)`. -/
def resampleSpecOut (input : List ℤ) (source target : ℕ) (i : ℕ) : ℤ :=
  let lo : ℕ := i * source / target
  let hi : ℕ := min (lo + 1) (input.length - 1)
  let pos : ℚ := (i : ℚ) * source / target
  let t : ℚ := pos - (lo : ℚ)
  jsRound ((input.getD lo 0 : ℚ) * (1 - t) + (input.getD hi 0 : ℚ) * t)

/-- Specification-side resampler (see `resampleSpecOut`); only describes the
case `source ≠ target`. -/
def resampleSpec (input : List ℤ) (source target : ℕ) : List ℤ :=
  (List.range (input.length * target / source)).map (resampleSpecOut input source target)

/-- Sample rate of the playback context (`SAMPLE_RATE` in `audioPlayback.ts`). -/
def SAMPLE_RATE : ℚ := 24000

/-- Pre-roll length (`CHUNKS_BEFORE_START` in `audioPlayback.ts`). -/
def CHUNKS_BEFORE_START : ℕ := 3

/-- One scheduling event of the web Playback Scheduler: `source.start(start)`
on a buffer of duration `dur`, issued while the audio clock read `now`;
`reanchored` records whether the underflow branch fired for this chunk. -/
structure Sched where
  start : ℚ
  dur : ℚ
  now : ℚ
  reanchored : Bool
deriving DecidableEq, Repr

/-- Mutable state of `WebAudioPlaybackEngine`: the audio context (modelled by
its presence flag and its clock passed into each call), the scheduling
anchor `nextStartTime`, the `started` flag, the pre-roll queue
`bufferedChunks` (held as chunk durations), the pending-source count and the
`destroyed` flag. -/
structure EngineState where
  hasCtx : Bool
  nextStartTime : ℚ
  started : Bool
  bufferedChunks : List ℚ
  pendingSources : ℕ
  destroyed : Bool
deriving DecidableEq, Repr

/-- Engine state right after construction plus `init()`: a fresh context,
zero anchor, not started, empty pre-roll queue, nothing pending. -/
def engineInit : EngineState :=
  { hasCtx := true, nextStartTime := 0, started := false,
    bufferedChunks := [], pendingSources := 0, destroyed := false }

/-- Duration in seconds of an `AudioBuffer` built from `samples` PCM16
samples by `pcmToAudioBuffer` (length divided by the 24 kHz rate). -/
def pcmDuration (samples : ℕ) : ℚ := (samples : ℚ) / SAMPLE_RATE

/-- The private `scheduleBuffer` method: bail out without a context;
re-anchor to `now + 0.05` when `nextStartTime` is already in the past;
start the source at the anchor, advance the anchor by the duration and
count the pending source. -/
def scheduleBuffer (now dur : ℚ) (s : EngineState) : EngineState × Option Sched :=
  if s.hasCtx = false then (s, none)
  else if s.nextStartTime < now then
    ({ s with nextStartTime := now + 1/20 + dur, pendingSources := s.pendingSources + 1 },
     some { start := now + 1/20, dur := dur, now := now, reanchored := true })
  else
    ({ s with nextStartTime := s.nextStartTime + dur, pendingSources := s.pendingSources + 1 },
     some { start := s.nextStartTime, dur := dur, now := now, reanchored := false })

/-- Folding `scheduleBuffer` over a list of chunk durations (the loop body
of `startPlayback`), collecting the emitted scheduling events. -/
def scheduleList (now : ℚ) (durs : List ℚ) (s : EngineState) : EngineState × List Sched :=
  match durs with
  | [] => (s, [])
  | d :: rest =>
    let p := scheduleBuffer now d s
    let q := scheduleList now rest p.1
    (q.1, p.2.toList ++ q.2)

/-- The private `startPlayback` method: mark started, anchor the first start
slightly in the future (`currentTime + 0.05`), schedule every held pre-roll
chunk back-to-back and empty the pre-roll queue. -/
def startPlayback (now : ℚ) (s : EngineState) : EngineState × List Sched :=
  if s.hasCtx = false then (s, [])
  else
    let s1 := { s with started := true, nextStartTime := now + 1/20 }
    let q := scheduleList now s1.bufferedChunks s1
    ({ q.1 with bufferedChunks := [] }, q.2)

/-- The public `enqueue`: ignore after destruction or without a context;
during pre-roll push the chunk (its duration) onto the queue and start
playback once `CHUNKS_BEFORE_START` chunks are held; afterwards schedule
the chunk directly. -/
def enqueue (now : ℚ) (samples : ℕ) (s : EngineState) : EngineState × List Sched :=
  if s.destroyed = true ∨ s.hasCtx = false then (s, [])
  else
    let dur := pcmDuration samples
    if s.started = false then
      let s1 := { s with bufferedChunks := s.bufferedChunks ++ [dur] }
      if CHUNKS_BEFORE_START ≤ s1.bufferedChunks.length then startPlayback now s1
      else (s1, [])
    else
      let p := scheduleBuffer now dur s
      (p.1, p.2.toList)

/-- The public `clear`: close the context (recreating it unless destroyed)
and reset the started flag, pre-roll queue, pending count and anchor. -/
def clear (s : EngineState) : EngineState :=
  { s with started := false, bufferedChunks := [], pendingSources := 0,
           nextStartTime := 0, hasCtx := !s.destroyed }

/-- The public `isActive`: playback has started and at least one source is
still pending. -/
def isActive (s : EngineState) : Bool :=
  s.started && decide (0 < s.pendingSources)

/-- Running a sequence of `enqueue` calls (each tagged with the audio-clock
reading at call time) and collecting every scheduling event in order. -/
def runEnq : EngineState → List (ℚ × ℕ) → EngineState × List Sched
  | s, [] => (s, [])
  | s, (now, n) :: rest =>
    let p := enqueue now n s
    let q := runEnq p.1 rest
    (q.1, p.2 ++ q.2)

/-- Session states of `useVoiceSession` (`VoiceSessionState`). -/
inductive VState
  | disconnected
  | connecting
  | connected
  | listening
  | processing
  | speaking
  | error
deriving DecidableEq, Repr

/-- One tag attached to a photo (`tag_type`, `tag_value`). -/
structure PhotoTag where
  tag_type : String
  tag_value : String
deriving DecidableEq, Repr

/-- Photo context passed into the session (`PhotoContext` in the hook);
optional fields model both an absent property and JavaScript falsiness of
the empty string through `strTruthy` below. -/
structure PhotoContext where
  id : String
  caption : Option String
  tags : Option (List PhotoTag)
  date_taken : Option String
deriving DecidableEq, Repr

/-- JavaScript truthiness of an optional string (`undefined` and the empty
string are falsy). -/
def strTruthy : Option String → Bool
  | none => false
  | some s => !s.isEmpty

/-- JavaScript truthiness of the guard `photo.tags && photo.tags.length > 0`. -/
def tagsTruthy : Option (List PhotoTag) → Bool
  | none => false
  | some l => decide (0 < l.length)

/-- The `buildPhotoDescription` helper: collect "Caption", people, places,
events and "Date taken" parts (truthy fields only), join them with ". ",
and fall back to a fixed placeholder sentence when every part is absent. -/
def buildPhotoDescription (photo : PhotoContext) : String :=
  let captionParts : List String :=
    if strTruthy photo.caption then
      ["Caption: \"" ++ photo.caption.getD "" ++ "\""] else []
  let tagParts : List String :=
    if tagsTruthy photo.tags then
      let tags := photo.tags.getD []
      let people := (tags.filter (fun t => t.tag_type == "person")).map PhotoTag.tag_value
      let places := (tags.filter (fun t => t.tag_type == "place")).map PhotoTag.tag_value
      let events := (tags.filter (fun t => t.tag_type == "event")).map PhotoTag.tag_value
      (if 0 < people.length then ["People in photo: " ++ String.intercalate ", " people] else [])
        ++ (if 0 < places.length then ["Location: " ++ String.intercalate ", " places] else [])
        ++ (if 0 < events.length then ["Event: " ++ String.intercalate ", " events] else [])
    else []
  let dateParts : List String :=
    if strTruthy photo.date_taken then ["Date taken: " ++ photo.date_taken.getD ""] else []
  let parts := captionParts ++ tagParts ++ dateParts
  if 0 < parts.length then String.intercalate ". " parts
  else "No additional context available for this photo."

/-- Fixed text surrounding the photo description in the greeting message
sent on the `connected` acknowledgement. -/
def greetingStart : String :=
  "Hello! I\x27m looking at some photos and would love to share memories with you. "

/-- Closing sentence of the greeting message. -/
def greetingEnd : String :=
  "\n\nPlease greet me warmly and gently ask if I recognize anything in this photo."

/-- Full text of the greeting control message for a given initial photo. -/
def greetingText (p : PhotoContext) : String :=
  greetingStart ++ buildPhotoDescription p ++ greetingEnd

/-- Outbound JSON control messages the session sends over the transport. -/
inductive OutMsg
  | text (text : String)
  | photoChange (photo_id : String) (caption : Option String)
      (tags : Option (List String)) (date_taken : Option String)
deriving DecidableEq, Repr

/-- Transcript entry emitted upward to the store (`VoiceTranscriptEntry`;
the wall-clock timestamp is outside the model). -/
structure TranscriptEntry where
  role : String
  text : String
  photo_id : Option String
deriving DecidableEq, Repr

/-- Observable effects of one session-machine step: outbound control
messages, transcript entries emitted to the store, PCM payloads handed to
the Playback Scheduler, and whether the scheduler was cleared. -/
structure Effects where
  outbound : List OutMsg
  transcript : List TranscriptEntry
  enqueued : List (List ℕ)
  cleared : Bool
deriving DecidableEq, Repr

/-- No observable effects. -/
def emptyEffects : Effects :=
  { outbound := [], transcript := [], enqueued := [], cleared := false }

/-- Session-machine state visible to `handleMessage` and the imperative
API: the state enum, the captured error message, whether the transport is
open (`wsRef.current?.readyState === OPEN`), whether the playback engine is
initialised (`playbackEngineRef.current` non-null), and the initial photo
context (`initialPhotoRef.current`). -/
structure VSession where
  vstate : VState
  errorMsg : Option String
  wsOpen : Bool
  hasEngine : Bool
  initialPhoto : Option PhotoContext
deriving DecidableEq, Repr

/-- Inbound transport messages: binary frames (a byte list), parsed JSON
control messages, and unparseable text. -/
inductive JsonMsg
  | connected
  | transcript (role text : String)
  | interrupted
  | photoContextUpdated (photo_id : String)
  | error (message : String)
deriving DecidableEq, Repr

/-- Inbound message as delivered by the socket. -/
inductive InMsg
  | binary (bytes : List ℕ)
  | json (j : JsonMsg)
  | unparseable
deriving DecidableEq, Repr

/-- The `handleMessage` callback: binary frames with leading type byte
`0x01` strip the 13-byte header, force the `speaking` state and enqueue the
PCM payload on the playback engine (when one exists); every other binary
frame is discarded.  JSON messages dispatch on their `type` field exactly
as the source does; note that `error` only captures the message text. -/
def handleMessage (s : VSession) (msg : InMsg) : VSession × Effects :=
  match msg with
  | .binary bytes =>
    if bytes.head? = some 1 then
      let pcm := bytes.drop 13
      if s.hasEngine then
        ({ s with vstate := VState.speaking }, { emptyEffects with enqueued := [pcm] })
      else (s, emptyEffects)
    else (s, emptyEffects)
  | .json .connected =>
    let s1 := { s with vstate := VState.connected }
    match s.wsOpen, s.initialPhoto with
    | true, some p =>
      (s1, { emptyEffects with outbound := [OutMsg.text (greetingText p)] })
    | _, _ => (s1, emptyEffects)
  | .json (.transcript role text) =>
    (s, { emptyEffects with transcript := [{ role := role, text := text, photo_id := none }] })
  | .json .interrupted =>
    if s.hasEngine then
      ({ s with vstate := VState.connected }, { emptyEffects with cleared := true })
    else ({ s with vstate := VState.connected }, emptyEffects)
  | .json (.photoContextUpdated _) => (s, emptyEffects)
  | .json (.error m) => ({ s with errorMsg := some m }, emptyEffects)
  | .unparseable => (s, emptyEffects)

/-- Side effects `connect` can perform, in program order. -/
inductive ConnectEffect
  | clearTranscript
  | setupAudioMode
  | requestPermission
  | initEngine
  | registerDrained
  | openTransport
deriving DecidableEq, Repr

/-- The `connect()` entry point: the configuration guard
(`!sessionId || !patientId || !GEMINI_API_KEY`) runs first and fails into
`error` with no effect at all; an already-open transport makes the call a
no-op; otherwise the state goes to `connecting`, the error is cleared, the
transcript cleared, audio mode set up and permission requested (denial
fails into `error`), then the playback engine is initialised and the
transport opened. -/
def connect (s : VSession) (sessionId patientId : String) (geminiApiKey : Option String)
    (permissionGranted : Bool) : VSession × List ConnectEffect :=
  if sessionId.isEmpty || patientId.isEmpty || !(strTruthy geminiApiKey) then
    ({ s with vstate := VState.error,
              errorMsg := some "Missing session ID, patient ID, or Gemini API Key" }, [])
  else if s.wsOpen then (s, [])
  else
    let s1 := { s with vstate := VState.connecting, errorMsg := none }
    if permissionGranted = false then
      ({ s1 with vstate := VState.error, errorMsg := some "Microphone permission denied" },
       [ConnectEffect.clearTranscript, ConnectEffect.setupAudioMode,
        ConnectEffect.requestPermission])
    else
      ({ s1 with hasEngine := true },
       [ConnectEffect.clearTranscript, ConnectEffect.setupAudioMode,
        ConnectEffect.requestPermission, ConnectEffect.initEngine,
        ConnectEffect.registerDrained, ConnectEffect.openTransport])

/-- The `sendPhotoChange` entry point: guarded entirely by the transport
being open; when open it serialises the photo snapshot as a `photo_change`
control message and emits a local system-role transcript entry. -/
def sendPhotoChange (s : VSession) (photo : PhotoContext) : Effects :=
  if s.wsOpen then
    { outbound := [OutMsg.photoChange photo.id photo.caption
        (photo.tags.map (fun ts => ts.map PhotoTag.tag_value)) photo.date_taken],
      transcript := [{ role := "system", text := "Viewed photo " ++ photo.id,
                       photo_id := some photo.id }],
      enqueued := [], cleared := false }
  else emptyEffects

/-! Theorems.  Helper lemmas first, then one theorem (plus witness or
counterexample) per claim. -/

/-- Base session used as a concrete starting point in several witnesses. -/
def baseSession : VSession :=
  { vstate := VState.connected, errorMsg := none, wsOpen := true,
    hasEngine := true, initialPhoto := none }

/-- Truncation toward zero of an integer-valued rational is that integer. -/
theorem ratTrunc_intCast (n : ℤ) : ratTrunc ((n : ℚ)) = n := by
  unfold ratTrunc
  split_ifs <;> simp

/-- C9: the Frame Encoder clamps to [-1, 1] then scales by 32768 (negative)
or 32767 (non-negative); the value stored into the `Int16Array` equals the
truncated product with no wrap, stays inside [-32768, 32767] for every
rational input, and the samples 2.0 and -2.0 yield 32767 and -32768. -/
theorem c9_encoder_never_wraps (x : ℚ) :
    int16Store (floatTo16BitPCM x) = ratTrunc (floatTo16BitPCM x) ∧
    -32768 ≤ int16Store (floatTo16BitPCM x) ∧
    int16Store (floatTo16BitPCM x) ≤ 32767 ∧
    int16Store (floatTo16BitPCM 2) = 32767 ∧
    int16Store (floatTo16BitPCM (-2)) = -32768 := by
  have hb : -32768 ≤ ratTrunc (floatTo16BitPCM x) ∧ ratTrunc (floatTo16BitPCM x) ≤ 32767 := by
    unfold floatTo16BitPCM ratTrunc
    have h1 : (-1 : ℚ) ≤ max (-1 : ℚ) (min 1 x) := le_max_left _ _
    have h2 : max (-1 : ℚ) (min 1 x) ≤ 1 := max_le (by norm_num) (min_le_left _ _)
    by_cases hneg : max (-1 : ℚ) (min 1 x) < 0
    · rw [if_pos hneg]
      have hv1 : (-32768 : ℚ) ≤ max (-1 : ℚ) (min 1 x) * 32768 := by nlinarith
      have hv2 : max (-1 : ℚ) (min 1 x) * 32768 < 0 := by nlinarith
      rw [if_pos hv2]
      constructor
      · have := Int.ceil_le_ceil (α := ℚ) hv1
        simpa using this
      · have : ⌈max (-1 : ℚ) (min 1 x) * 32768⌉ ≤ 0 := Int.ceil_le.2 (by push_cast; linarith)
        omega
    · rw [if_neg hneg]
      push_neg at hneg
      have hv1 : (0 : ℚ) ≤ max (-1 : ℚ) (min 1 x) * 32767 := by nlinarith
      have hv2 : max (-1 : ℚ) (min 1 x) * 32767 ≤ 32767 := by nlinarith
      rw [if_neg (not_lt.2 hv1)]
      constructor
      · have : (0 : ℤ) ≤ ⌊max (-1 : ℚ) (min 1 x) * 32767⌋ := Int.floor_nonneg.2 hv1
        omega
      · have := Int.floor_le_floor (α := ℚ) hv2
        simpa using this
  have hid : int16Store (floatTo16BitPCM x) = ratTrunc (floatTo16BitPCM x) := by
    unfold int16Store
    have hmod : (ratTrunc (floatTo16BitPCM x) + 32768) % 65536
        = ratTrunc (floatTo16BitPCM x) + 32768 :=
      Int.emod_eq_of_lt (by omega) (by omega)
    omega
  have e2 : floatTo16BitPCM 2 = ((32767 : ℤ) : ℚ) := by
    unfold floatTo16BitPCM
    norm_num [min_def, max_def]
  have e2n : floatTo16BitPCM (-2) = ((-32768 : ℤ) : ℚ) := by
    unfold floatTo16BitPCM
    norm_num [min_def, max_def]
  have t2 : int16Store (floatTo16BitPCM 2) = 32767 := by
    rw [e2]; unfold int16Store; rw [ratTrunc_intCast]; decide
  have t2n : int16Store (floatTo16BitPCM (-2)) = -32768 := by
    rw [e2n]; unfold int16Store; rw [ratTrunc_intCast]; decide
  exact ⟨hid, by omega, by omega, t2, t2n⟩

/-- C1: `scheduleBuffer` never schedules in the past.  With a live context
it always emits a start event whose start time is at least the audio
clock's reading, and when the maintained anchor has fallen behind the clock
(underflow) the start is re-anchored to exactly `now + 0.05`. -/
theorem c1_never_schedules_in_past (s : EngineState) (now dur : ℚ)
    (h : s.hasCtx = true) :
    ∃ e : Sched, (scheduleBuffer now dur s).2 = some e ∧ now ≤ e.start ∧
      (s.nextStartTime < now → e.start = now + 1/20) := by
  have hctx : ¬(s.hasCtx = false) := by simp [h]
  unfold scheduleBuffer
  rw [if_neg hctx]
  by_cases hlt : s.nextStartTime < now
  · rw [if_pos hlt]
    exact ⟨_, rfl, by dsimp; linarith, fun _ => rfl⟩
  · rw [if_neg hlt]
    exact ⟨_, rfl, le_of_not_lt hlt, fun hc => absurd hc hlt⟩

/-- Witness for C1 at a concrete state and clock reading. -/
theorem c1_witness :
    engineInit.hasCtx = true ∧
    ∃ e : Sched, (scheduleBuffer 3 (1/100) engineInit).2 = some e ∧ (3 : ℚ) ≤ e.start ∧
      (engineInit.nextStartTime < 3 → e.start = 3 + 1/20) :=
  ⟨rfl, c1_never_schedules_in_past engineInit 3 (1/100) rfl⟩

/-- C2 counterexample: on an inbound `{"type":"error","message":"boom"}`
the handler captures the message but the session state stays `connected`;
it does not transition to the `error` state as the claim says. -/
theorem c2_counterexample :
    (handleMessage baseSession (InMsg.json (JsonMsg.error "boom"))).1.errorMsg = some "boom" ∧
    (handleMessage baseSession (InMsg.json (JsonMsg.error "boom"))).1.vstate = VState.connected ∧
    (handleMessage baseSession (InMsg.json (JsonMsg.error "boom"))).1.vstate ≠ VState.error := by
  exact ⟨rfl, rfl, by decide⟩

/-- C2 as amended: an inbound `error` message captures the message text as
the session's error message and changes nothing else — in particular the
session state is left unchanged and no other effect is produced. -/
theorem c2_error_captures_message_only (s : VSession) (m : String) :
    handleMessage s (InMsg.json (JsonMsg.error m))
      = ({ s with errorMsg := some m }, emptyEffects) := rfl

/-- C3: `connect()` fails fast when the session id or patient id is empty
or the credential is missing/empty: synchronously into `error` with the
configuration message, with an empty effect list (no audio-mode setup, no
permission request, no engine initialisation, no transport open), from any
prior session state. -/
theorem c3_connect_fails_fast (s : VSession) (sid pid : String) (key : Option String)
    (perm : Bool)
    (h : sid.isEmpty = true ∨ pid.isEmpty = true ∨ strTruthy key = false) :
    connect s sid pid key perm =
      ({ s with vstate := VState.error,
                errorMsg := some "Missing session ID, patient ID, or Gemini API Key" }, []) := by
  unfold connect
  rcases h with h | h | h <;> simp [h]

/-- Witness for C3: empty session id with every other input healthy. -/
theorem c3_witness :
    (String.isEmpty "" = true ∨ String.isEmpty "p1" = true ∨ strTruthy (some "k") = false) ∧
    connect baseSession "" "p1" (some "k") true =
      ({ baseSession with vstate := VState.error,
                          errorMsg := some "Missing session ID, patient ID, or Gemini API Key" }, []) :=
  ⟨Or.inl rfl, c3_connect_fails_fast baseSession "" "p1" (some "k") true (Or.inl rfl)⟩

/-- C6: receiving `{"type":"connected"}` while `connecting` with an open
transport and an initial photo context moves the session to `connected` and
sends exactly one outbound `text` message, whose text embeds the
description built by `buildPhotoDescription` from the photo's caption, tags
and date; when every field is absent (or falsy) that description is the
fixed placeholder sentence. -/
theorem c6_connected_greeting (s : VSession) (p : PhotoContext)
    (hst : s.vstate = VState.connecting) (hws : s.wsOpen = true)
    (hp : s.initialPhoto = some p) :
    handleMessage s (InMsg.json JsonMsg.connected) =
      ({ s with vstate := VState.connected },
       { emptyEffects with outbound :=
          [OutMsg.text (greetingStart ++ buildPhotoDescription p ++ greetingEnd)] }) ∧
    (strTruthy p.caption = false → tagsTruthy p.tags = false →
      strTruthy p.date_taken = false →
      buildPhotoDescription p = "No additional context available for this photo.") := by
  constructor
  · simp [handleMessage, hws, hp, greetingText]
  · intro h1 h2 h3
    simp [buildPhotoDescription, h1, h2, h3]

/-- Concrete photo used by the C6 witness. -/
def c6Photo : PhotoContext :=
  { id := "ph1", caption := some "Beach day", tags := none, date_taken := none }

/-- Concrete session used by the C6 witness. -/
def c6Session : VSession :=
  { vstate := VState.connecting, errorMsg := none, wsOpen := true,
    hasEngine := true, initialPhoto := some c6Photo }

/-- Witness for C6 at a concrete connecting session with an initial photo. -/
theorem c6_witness :
    c6Session.vstate = VState.connecting ∧ c6Session.wsOpen = true ∧
    c6Session.initialPhoto = some c6Photo ∧
    (handleMessage c6Session (InMsg.json JsonMsg.connected) =
      ({ c6Session with vstate := VState.connected },
       { emptyEffects with outbound :=
          [OutMsg.text (greetingStart ++ buildPhotoDescription c6Photo ++ greetingEnd)] }) ∧
     (strTruthy c6Photo.caption = false → tagsTruthy c6Photo.tags = false →
       strTruthy c6Photo.date_taken = false →
       buildPhotoDescription c6Photo = "No additional context available for this photo.")) :=
  ⟨rfl, rfl, rfl, c6_connected_greeting c6Session c6Photo rfl rfl rfl⟩

/-- C7: `sendPhotoChange` is a no-op (no outbound message, no transcript
entry) unless the transport is open; with an open transport it serialises
{id, caption, tag values, date} as a `photo_change` control message and
emits one local system-role transcript entry recording the view event. -/
theorem c7_sendPhotoChange_contract (s : VSession) (photo : PhotoContext) :
    (s.wsOpen = false → sendPhotoChange s photo = emptyEffects) ∧
    (s.wsOpen = true → sendPhotoChange s photo =
      { outbound := [OutMsg.photoChange photo.id photo.caption
          (photo.tags.map (fun ts => ts.map PhotoTag.tag_value)) photo.date_taken],
        transcript := [{ role := "system", text := "Viewed photo " ++ photo.id,
                         photo_id := some photo.id }],
        enqueued := [], cleared := false }) := by
  constructor <;> intro h <;> simp [sendPhotoChange, h]

/-- Witness for C7 at a concrete open session and photo. -/
theorem c7_witness :
    (baseSession.wsOpen = false → sendPhotoChange baseSession c6Photo = emptyEffects) ∧
    (baseSession.wsOpen = true → sendPhotoChange baseSession c6Photo =
      { outbound := [OutMsg.photoChange c6Photo.id c6Photo.caption
          (c6Photo.tags.map (fun ts => ts.map PhotoTag.tag_value)) c6Photo.date_taken],
        transcript := [{ role := "system", text := "Viewed photo " ++ c6Photo.id,
                         photo_id := some c6Photo.id }],
        enqueued := [], cleared := false }) :=
  c7_sendPhotoChange_contract baseSession c6Photo

/-- C10: an inbound binary message whose leading type byte is not `0x01` is
discarded entirely: the session state is unchanged and no outbound message,
transcript entry, playback enqueue or error results. -/
theorem c10_nonaudio_binary_discarded (s : VSession) (bytes : List ℕ) (b : ℕ)
    (hb : bytes.head? = some b) (hne : b ≠ 1) :
    handleMessage s (InMsg.binary bytes) = (s, emptyEffects) := by
  simp [handleMessage, hb, hne]

/-- Witness for C10: a concrete frame with leading byte `0x02`. -/
theorem c10_witness :
    ([2, 7, 7].head? = some 2) ∧ (2 ≠ 1) ∧
    handleMessage baseSession (InMsg.binary [2, 7, 7]) = (baseSession, emptyEffects) :=
  ⟨rfl, by decide, c10_nonaudio_binary_discarded baseSession [2, 7, 7] 2 rfl (by decide)⟩

/-- `scheduleBuffer` never touches the context, destroyed and started flags
or the pre-roll queue. -/
theorem scheduleBuffer_flags (now dur : ℚ) (s : EngineState) :
    (scheduleBuffer now dur s).1.hasCtx = s.hasCtx ∧
    (scheduleBuffer now dur s).1.destroyed = s.destroyed ∧
    (scheduleBuffer now dur s).1.started = s.started ∧
    (scheduleBuffer now dur s).1.bufferedChunks = s.bufferedChunks := by
  unfold scheduleBuffer
  split_ifs <;> simp

/-- With a live context `scheduleBuffer` always emits exactly one event. -/
theorem scheduleBuffer_emits (now dur : ℚ) (s : EngineState) (h : s.hasCtx = true) :
    ((scheduleBuffer now dur s).2).toList.length = 1 := by
  have hctx : ¬(s.hasCtx = false) := by simp [h]
  unfold scheduleBuffer
  rw [if_neg hctx]
  split_ifs <;> rfl

/-- `scheduleList` preserves the same four fields as `scheduleBuffer`. -/
theorem scheduleList_flags (now : ℚ) (durs : List ℚ) (s : EngineState) :
    (scheduleList now durs s).1.hasCtx = s.hasCtx ∧
    (scheduleList now durs s).1.destroyed = s.destroyed ∧
    (scheduleList now durs s).1.started = s.started ∧
    (scheduleList now durs s).1.bufferedChunks = s.bufferedChunks := by
  induction durs generalizing s with
  | nil => simp [scheduleList]
  | cons d rest ih =>
    have h1 := scheduleBuffer_flags now d s
    have h2 := ih (scheduleBuffer now d s).1
    unfold scheduleList
    exact ⟨h2.1.trans h1.1, h2.2.1.trans h1.2.1, h2.2.2.1.trans h1.2.2.1,
           h2.2.2.2.trans h1.2.2.2⟩

/-- With a live context `scheduleList` emits one event per duration. -/
theorem scheduleList_length (now : ℚ) (durs : List ℚ) (s : EngineState)
    (h : s.hasCtx = true) :
    ((scheduleList now durs s).2).length = durs.length := by
  induction durs generalizing s with
  | nil => simp [scheduleList]
  | cons d rest ih =>
    have h1 : (scheduleBuffer now d s).1.hasCtx = true :=
      (scheduleBuffer_flags now d s).1.trans h
    unfold scheduleList
    simp [scheduleBuffer_emits now d s h, ih _ h1]
    omega

/-- `enqueue` never changes the context and destroyed flags. -/
theorem enqueue_flags (now : ℚ) (n : ℕ) (s : EngineState) :
    (enqueue now n s).1.hasCtx = s.hasCtx ∧
    (enqueue now n s).1.destroyed = s.destroyed := by
  unfold enqueue startPlayback
  dsimp only
  split_ifs with h1 h2 h3 h4
  · exact ⟨rfl, rfl⟩
  · exact ⟨rfl, rfl⟩
  · exact ⟨(scheduleList_flags _ _ _).1, (scheduleList_flags _ _ _).2.1⟩
  · exact ⟨rfl, rfl⟩
  · exact ⟨(scheduleBuffer_flags _ _ _).1, (scheduleBuffer_flags _ _ _).2.1⟩

/-- A run of `enqueue` calls never changes the context and destroyed flags. -/
theorem runEnq_flags (ops : List (ℚ × ℕ)) (s : EngineState) :
    (runEnq s ops).1.hasCtx = s.hasCtx ∧ (runEnq s ops).1.destroyed = s.destroyed := by
  induction ops generalizing s with
  | nil => exact ⟨rfl, rfl⟩
  | cons op rest ih =>
    have h1 := enqueue_flags op.1 op.2 s
    have h2 := ih (enqueue op.1 op.2 s).1
    unfold runEnq
    exact ⟨h2.1.trans h1.1, h2.2.trans h1.2⟩

/-- Clearing after any run of `enqueue` calls restores the exact initial
engine state (the context is recreated since the engine is not destroyed). -/
theorem clear_after_run (ops : List (ℚ × ℕ)) :
    clear (runEnq engineInit ops).1 = engineInit := by
  have hd : (runEnq engineInit ops).1.destroyed = false := (runEnq_flags ops engineInit).2
  unfold clear
  rw [hd]
  rfl

/-- C5 counterexample: after three `enqueue` calls and a `clear()`, the
third chunk enqueued after the clear is scheduled immediately — its
`enqueue` call emits three start events (the two held chunks plus itself),
so it is not true that the first N = 3 post-clear chunks are all held
without being scheduled.  Only the first N - 1 = 2 are. -/
theorem c5_counterexample :
    (enqueue 1 240 (runEnq (clear (runEnq engineInit
        [(0, 240), (0, 240), (0, 240)]).1) [(1, 240), (1, 240)]).1).2.length = 3 := by
  have h0 : clear (runEnq engineInit [((0 : ℚ), 240), (0, 240), (0, 240)]).1 = engineInit :=
    clear_after_run _
  rw [h0]
  have h1 : runEnq engineInit [((1 : ℚ), 240), (1, 240)]
      = ({ engineInit with bufferedChunks := [pcmDuration 240, pcmDuration 240] }, []) := by
    norm_num [runEnq, enqueue, engineInit, CHUNKS_BEFORE_START]
  rw [h1]
  norm_num [enqueue, startPlayback, engineInit, CHUNKS_BEFORE_START]
  rw [scheduleList_length _ _ _ rfl]
  rfl

/-- C5 as amended: after at least three `enqueue` calls followed by
`clear()`, `isActive` is false and the pending count, pre-roll queue and
scheduling anchor are back to their initial values (the cleared engine
equals the freshly initialised one); a subsequent `enqueue` re-enters
pre-roll: each of the first two post-clear chunks is held in the local
queue and schedules nothing, and the third post-clear `enqueue` then
triggers playback, scheduling all three held chunks at once. -/
theorem c5_clear_resets (ops : List (ℚ × ℕ)) (h3 : 3 ≤ ops.length)
    (now1 now2 now3 : ℚ) (n1 n2 n3 : ℕ) :
    isActive (clear (runEnq engineInit ops).1) = false ∧
    clear (runEnq engineInit ops).1 = engineInit ∧
    (enqueue now1 n1 (clear (runEnq engineInit ops).1)).2 = [] ∧
    (enqueue now1 n1 (clear (runEnq engineInit ops).1)).1.bufferedChunks
      = [pcmDuration n1] ∧
    (enqueue now2 n2 (enqueue now1 n1 (clear (runEnq engineInit ops).1)).1).2 = [] ∧
    (enqueue now2 n2 (enqueue now1 n1 (clear (runEnq engineInit ops).1)).1).1.bufferedChunks
      = [pcmDuration n1, pcmDuration n2] ∧
    (enqueue now3 n3 (enqueue now2 n2 (enqueue now1 n1
        (clear (runEnq engineInit ops).1)).1).1).2.length = 3 := by
  have hc := clear_after_run ops
  rw [hc]
  have e1 : enqueue now1 n1 engineInit
      = ({ engineInit with bufferedChunks := [pcmDuration n1] }, []) := by
    norm_num [enqueue, engineInit, CHUNKS_BEFORE_START]
  have e2 : enqueue now2 n2 { engineInit with bufferedChunks := [pcmDuration n1] }
      = ({ engineInit with bufferedChunks := [pcmDuration n1, pcmDuration n2] }, []) := by
    norm_num [enqueue, engineInit, CHUNKS_BEFORE_START]
  have e3 : (enqueue now3 n3 { engineInit with
      bufferedChunks := [pcmDuration n1, pcmDuration n2] }).2.length = 3 := by
    norm_num [enqueue, startPlayback, engineInit, CHUNKS_BEFORE_START]
    rw [scheduleList_length _ _ _ rfl]
    rfl
  rw [e1, e2]
  exact ⟨rfl, rfl, rfl, rfl, rfl, rfl, e3⟩

/-- Witness for C5 at a concrete trace of three 10 ms chunks. -/
theorem c5_witness :
    3 ≤ ([((0 : ℚ), 240), ((0 : ℚ), 240), ((0 : ℚ), 240)] : List (ℚ × ℕ)).length ∧
    (isActive (clear (runEnq engineInit
        [((0 : ℚ), 240), ((0 : ℚ), 240), ((0 : ℚ), 240)]).1) = false ∧
     clear (runEnq engineInit [((0 : ℚ), 240), ((0 : ℚ), 240), ((0 : ℚ), 240)]).1
       = engineInit ∧
     (enqueue 1 240 (clear (runEnq engineInit
        [((0 : ℚ), 240), ((0 : ℚ), 240), ((0 : ℚ), 240)]).1)).2 = [] ∧
     (enqueue 1 240 (clear (runEnq engineInit
        [((0 : ℚ), 240), ((0 : ℚ), 240), ((0 : ℚ), 240)]).1)).1.bufferedChunks
       = [pcmDuration 240] ∧
     (enqueue 1 240 (enqueue 1 240 (clear (runEnq engineInit
        [((0 : ℚ), 240), ((0 : ℚ), 240), ((0 : ℚ), 240)]).1)).1).2 = [] ∧
     (enqueue 1 240 (enqueue 1 240 (clear (runEnq engineInit
        [((0 : ℚ), 240), ((0 : ℚ), 240), ((0 : ℚ), 240)]).1)).1).1.bufferedChunks
       = [pcmDuration 240, pcmDuration 240] ∧
     (enqueue 1 240 (enqueue 1 240 (enqueue 1 240 (clear (runEnq engineInit
        [((0 : ℚ), 240), ((0 : ℚ), 240), ((0 : ℚ), 240)]).1)).1).1).2.length = 3) :=
  ⟨by decide, c5_clear_resets _ (by decide) 1 1 1 240 240 240⟩

/-- C8: the Resampler is pure and deterministic (it is a function); equal
rates return the input unchanged for every rate; and for distinct positive
rates the output agrees exactly with the specification reading — length
`floor(length / ratio)` and each sample the round-to-nearest linear
interpolation between the floor-index sample and its clamped successor
(`resampleSpec`). -/
theorem c8_resample_correct (input : List ℤ) (source target R : ℕ)
    (hs : 0 < source) (ht : 0 < target) (hne : source ≠ target) :
    resample input R R = input ∧
    resample input source target = resampleSpec input source target := by
  constructor
  · simp [resample]
  · unfold resample resampleSpec
    rw [if_neg hne]
    dsimp only
    have hlen : (⌊(input.length : ℚ) / ((source : ℚ) / (target : ℚ))⌋).toNat
        = input.length * target / source := by
      rw [div_div_eq_mul_div]
      have hcast : (input.length : ℚ) * (target : ℚ) / (source : ℚ)
          = ((input.length * target : ℕ) : ℚ) / ((source : ℕ) : ℚ) := by
        push_cast; ring
      rw [hcast, Int.floor_toNat, Nat.floor_div_eq_div]
    rw [hlen]
    apply List.map_congr_left
    intro i hi
    have hiL : i < input.length * target / source := List.mem_range.mp hi
    have hlen1 : 1 ≤ input.length := by
      rcases Nat.eq_zero_or_pos input.length with h0 | h0
      · rw [h0] at hiL; simp at hiL
      · exact h0
    unfold resampleOut resampleSpecOut
    dsimp only
    have hfloor : ⌊(i : ℚ) * ((source : ℚ) / (target : ℚ))⌋
        = ((i * source / target : ℕ) : ℤ) := by
      have h1 : (i : ℚ) * ((source : ℚ) / (target : ℚ))
          = ((i * source : ℕ) : ℚ) / ((target : ℕ) : ℚ) := by
        push_cast; ring
      rw [h1, ← Int.natCast_floor_eq_floor (by positivity), Nat.floor_div_eq_div]
    rw [hfloor]
    have hmin : (min (((i * source / target : ℕ) : ℤ) + 1) ((input.length : ℤ) - 1)).toNat
        = min (i * source / target + 1) (input.length - 1) := by
      clear hiL hi hne hlen
      generalize (i * source / target : ℕ) = k
      omega
    rw [hmin]
    simp only [Int.toNat_natCast, Int.cast_natCast, ← mul_div_assoc]

/-- Witness for C8 at a 48 kHz to 16 kHz downsample of six samples. -/
theorem c8_witness :
    0 < 48000 ∧ 0 < 16000 ∧ 48000 ≠ 16000 ∧
    (resample [0, 100, -200, 300, 32767, -32768] 5 5 = [0, 100, -200, 300, 32767, -32768] ∧
     resample [0, 100, -200, 300, 32767, -32768] 48000 16000
       = resampleSpec [0, 100, -200, 300, 32767, -32768] 48000 16000) :=
  ⟨by decide, by decide, by decide,
   c8_resample_correct [0, 100, -200, 300, 32767, -32768] 48000 16000 5
     (by decide) (by decide) (by decide)⟩

/-- Ordering relation between consecutive scheduling events: strictly
increasing start times, and contiguity (start equals previous start plus
previous duration) whenever the later chunk was not re-anchored. -/
def chunkStep (a b : Sched) : Prop :=
  a.start < b.start ∧ (b.reanchored = false → b.start = a.start + a.dur)

/-- A scheduling event whose start is its clock reading plus the 50 ms
safety margin. -/
def anchoredAt (e : Sched) : Prop := e.start = e.now + 1/20

/-- Invariant carried along a run of the engine: live context, positive
held durations, event log chained by `chunkStep`, every re-anchored event
and the first event anchored at `now + 0.05`, and the scheduling anchor
sitting exactly one chunk past the last emitted event. -/
structure EngInv (s : EngineState) (evs : List Sched) : Prop where
  ctx : s.hasCtx = true
  notDestroyed : s.destroyed = false
  bufPos : ∀ d ∈ s.bufferedChunks, 0 < d
  chain : List.Chain' chunkStep evs
  anchors : ∀ e ∈ evs, e.reanchored = true → anchoredAt e
  headAnchor : ∀ e, evs.head? = some e → anchoredAt e ∧ e.reanchored = false
  lastStep : ∀ e, evs.getLast? = some e →
    s.nextStartTime = e.start + e.dur ∧ e.start < s.nextStartTime
  startedNonnil : s.started = true → evs ≠ []
  notStartedNil : s.started = false → evs = []

/-- A singleton `scheduleList` is one `scheduleBuffer` step. -/
theorem scheduleList_singleton (now d : ℚ) (s : EngineState) :
    scheduleList now [d] s
      = ((scheduleBuffer now d s).1, (scheduleBuffer now d s).2.toList) := by
  unfold scheduleList
  simp [scheduleList]

/-- Core lemma: folding `scheduleBuffer` over positive durations extends a
well-chained event log by well-chained events; the first event ever emitted
is anchored at `now + 0.05`; every re-anchored event is anchored at its own
`now + 0.05`; and the final scheduling anchor sits one chunk past the final
event. -/
theorem scheduleList_spec (now : ℚ) (durs : List ℚ) :
    ∀ (s : EngineState) (evs : List Sched),
    s.hasCtx = true →
    (∀ d ∈ durs, 0 < d) →
    (∀ e, evs.getLast? = some e →
      s.nextStartTime = e.start + e.dur ∧ e.start < s.nextStartTime) →
    (evs = [] → s.nextStartTime = now + 1/20) →
    List.Chain' chunkStep evs →
    (∀ e ∈ evs, e.reanchored = true → anchoredAt e) →
    (∀ e, evs.head? = some e → anchoredAt e ∧ e.reanchored = false) →
    List.Chain' chunkStep (evs ++ (scheduleList now durs s).2) ∧
    (∀ e ∈ evs ++ (scheduleList now durs s).2, e.reanchored = true → anchoredAt e) ∧
    (∀ e, (evs ++ (scheduleList now durs s).2).head? = some e →
      anchoredAt e ∧ e.reanchored = false) ∧
    (∀ e, (evs ++ (scheduleList now durs s).2).getLast? = some e →
      (scheduleList now durs s).1.nextStartTime = e.start + e.dur ∧
      e.start < (scheduleList now durs s).1.nextStartTime) ∧
    (evs ++ (scheduleList now durs s).2 = [] →
      (scheduleList now durs s).1.nextStartTime = now + 1/20) := by
  induction durs with
  | nil =>
    intro s evs hctx hpos hlastSome hlastNone hchain hanch hhead
    simp only [scheduleList, List.append_nil]
    exact ⟨hchain, hanch, hhead, hlastSome, hlastNone⟩
  | cons d rest ih =>
    intro s evs hctx hpos hlastSome hlastNone hchain hanch hhead
    have hctx' : ¬(s.hasCtx = false) := by simp [hctx]
    have hd : 0 < d := hpos d (List.mem_cons_self d rest)
    have hpos' : ∀ x ∈ rest, 0 < x := fun x hx => hpos x (List.mem_cons_of_mem d hx)
    have step : ∃ s₂ e, scheduleBuffer now d s = (s₂, some e) ∧
        s₂.hasCtx = true ∧
        s₂.nextStartTime = e.start + e.dur ∧
        e.dur = d ∧
        (∀ el, evs.getLast? = some el → chunkStep el e) ∧
        (evs = [] → anchoredAt e ∧ e.reanchored = false) ∧
        (e.reanchored = true → anchoredAt e) := by
      by_cases hlt : s.nextStartTime < now
      · refine ⟨{ s with nextStartTime := now + 1/20 + d, pendingSources := s.pendingSources + 1 }, { start := now + 1/20, dur := d, now := now, reanchored := true }, ?_, hctx, rfl, rfl, ?_, ?_, ?_⟩
        · unfold scheduleBuffer
          rw [if_neg hctx', if_pos hlt]
        · intro el hel
          obtain ⟨hnst, hels⟩ := hlastSome el hel
          refine ⟨?_, ?_⟩
          · show el.start < now + 1/20
            linarith
          · intro hf
            exact absurd hf (by simp)
        · intro hnil
          exfalso
          have h20 := hlastNone hnil
          rw [h20] at hlt
          linarith
        · intro _
          rfl
      · refine ⟨{ s with nextStartTime := s.nextStartTime + d, pendingSources := s.pendingSources + 1 }, { start := s.nextStartTime, dur := d, now := now, reanchored := false }, ?_, hctx, rfl, rfl, ?_, ?_, ?_⟩
        · unfold scheduleBuffer
          rw [if_neg hctx', if_neg hlt]
        · intro el hel
          obtain ⟨hnst, hels⟩ := hlastSome el hel
          exact ⟨hels, fun _ => hnst⟩
        · intro hnil
          exact ⟨hlastNone hnil, rfl⟩
        · intro hf
          exact absurd hf (by simp)
    obtain ⟨s₂, e, hsb, f1, f2, f3, f4, f5, f6⟩ := step
    have hstep_last : ∀ x, (evs ++ [e]).getLast? = some x →
        s₂.nextStartTime = x.start + x.dur ∧ x.start < s₂.nextStartTime := by
      intro x hx
      rw [List.getLast?_concat] at hx
      obtain rfl := Option.some.inj hx
      refine ⟨f2, ?_⟩
      rw [f2, f3]
      linarith
    have hchain2 : List.Chain' chunkStep (evs ++ [e]) :=
      List.Chain'.append hchain (List.chain'_singleton e)
        (by
          intro x hx y hy
          simp only [List.head?_cons, Option.mem_def, Option.some.injEq] at hy
          subst hy
          exact f4 x (Option.mem_def.mp hx))
    have hanch2 : ∀ x ∈ evs ++ [e], x.reanchored = true → anchoredAt x := by
      intro x hx hre
      rcases List.mem_append.mp hx with hx | hx
      · exact hanch x hx hre
      · simp only [List.mem_singleton] at hx
        subst hx
        exact f6 hre
    have hhead2 : ∀ x, (evs ++ [e]).head? = some x →
        anchoredAt x ∧ x.reanchored = false := by
      intro x hx
      cases evs with
      | nil =>
        simp only [List.nil_append, List.head?_cons] at hx
        obtain rfl := Option.some.inj hx
        exact f5 rfl
      | cons a l =>
        simp only [List.cons_append, List.head?_cons] at hx
        obtain rfl := Option.some.inj hx
        exact hhead a rfl
    have happ := ih s₂ (evs ++ [e]) f1 hpos' hstep_last
      (by intro hx; simp at hx)
      hchain2 hanch2 hhead2
    have hexp : scheduleList now (d :: rest) s
        = ((scheduleList now rest s₂).1, e :: (scheduleList now rest s₂).2) := by
      show (let p := scheduleBuffer now d s
            let q := scheduleList now rest p.1
            (q.1, p.2.toList ++ q.2)) = _
      rw [hsb]
      rfl
    rw [hexp]
    have hassoc : evs ++ e :: (scheduleList now rest s₂).2
        = (evs ++ [e]) ++ (scheduleList now rest s₂).2 := by
      simp
    rw [hassoc]
    exact happ

/-- Positivity of a chunk duration built from a positive sample count. -/
theorem pcmDuration_pos (n : ℕ) (hn : 0 < n) : 0 < pcmDuration n := by
  unfold pcmDuration SAMPLE_RATE
  have hq : (0 : ℚ) < (n : ℚ) := by exact_mod_cast hn
  positivity

/-- Entering playback from a non-empty pre-roll queue of positive durations
establishes the run invariant with the freshly scheduled events. -/
theorem startPlayback_inv (now : ℚ) (s : EngineState)
    (hctx : s.hasCtx = true) (hdes : s.destroyed = false)
    (hbuf : ∀ d ∈ s.bufferedChunks, 0 < d)
    (hne : s.bufferedChunks ≠ []) :
    EngInv (startPlayback now s).1 (startPlayback now s).2 := by
  have hctx' : ¬(s.hasCtx = false) := by simp [hctx]
  have hexp : startPlayback now s
      = ({ (scheduleList now s.bufferedChunks
            { s with started := true, nextStartTime := now + 1/20 }).1 with
            bufferedChunks := [] },
         (scheduleList now s.bufferedChunks
            { s with started := true, nextStartTime := now + 1/20 }).2) := by
    unfold startPlayback
    rw [if_neg hctx']
  rw [hexp]
  have hspec := scheduleList_spec now s.bufferedChunks
      { s with started := true, nextStartTime := now + 1/20 } [] hctx hbuf
      (by intro x hx; simp at hx)
      (fun _ => rfl)
      List.chain'_nil
      (by intro x hx; simp at hx)
      (by intro x hx; simp at hx)
  obtain ⟨hch, han, hhd, hlst, hn0⟩ := hspec
  simp only [List.nil_append] at hch han hhd hlst hn0
  have hflags := scheduleList_flags now s.bufferedChunks
      { s with started := true, nextStartTime := now + 1/20 }
  have hlen := scheduleList_length now s.bufferedChunks
      { s with started := true, nextStartTime := now + 1/20 } hctx
  refine ⟨hflags.1.trans hctx, hflags.2.1.trans hdes, by simp, hch, han, hhd, hlst, ?_, ?_⟩
  · intro _ h0
    apply hne
    have hl2 := hlen
    rw [h0] at hl2
    exact List.length_eq_zero.mp hl2.symm
  · intro hf
    exfalso
    have hstd := hflags.2.2.1
    have hf2 : (scheduleList now s.bufferedChunks
        { s with started := true, nextStartTime := now + 1/20 }).1.started = false := hf
    rw [hstd] at hf2
    simp at hf2

/-- One `enqueue` call preserves the run invariant, extending the event log
with the events it emits. -/
theorem enqueue_inv (now : ℚ) (n : ℕ) (s : EngineState) (evs : List Sched)
    (hinv : EngInv s evs) (hn : 0 < n) :
    EngInv (enqueue now n s).1 (evs ++ (enqueue now n s).2) := by
  obtain ⟨hctx, hdes, hbuf, hchain, hanch, hhead, hlast, hsn, hnn⟩ := hinv
  have hcond : ¬(s.destroyed = true ∨ s.hasCtx = false) := by simp [hctx, hdes]
  have hdpos : 0 < pcmDuration n := pcmDuration_pos n hn
  have hbuf2 : ∀ d ∈ s.bufferedChunks ++ [pcmDuration n], 0 < d := by
    intro d hdm
    rcases List.mem_append.mp hdm with h | h
    · exact hbuf d h
    · simp only [List.mem_singleton] at h
      subst h
      exact hdpos
  by_cases hst : s.started = false
  · have hnil : evs = [] := hnn hst
    subst hnil
    simp only [List.nil_append]
    by_cases hlen : CHUNKS_BEFORE_START ≤ (s.bufferedChunks ++ [pcmDuration n]).length
    · have hexp : enqueue now n s
          = startPlayback now { s with bufferedChunks := s.bufferedChunks ++ [pcmDuration n] } := by
        unfold enqueue
        dsimp only
        rw [if_neg hcond, if_pos hst, if_pos hlen]
      rw [hexp]
      exact startPlayback_inv now _ hctx hdes hbuf2 (by simp)
    · have hexp : enqueue now n s
          = ({ s with bufferedChunks := s.bufferedChunks ++ [pcmDuration n] }, []) := by
        unfold enqueue
        dsimp only
        rw [if_neg hcond, if_pos hst, if_neg hlen]
      rw [hexp]
      refine ⟨hctx, hdes, hbuf2, List.chain'_nil, ?_, ?_, ?_, ?_, fun _ => rfl⟩
      · intro x hx
        simp at hx
      · intro x hx
        simp at hx
      · intro x hx
        simp at hx
      · intro hf
        have hf2 : s.started = true := hf
        rw [hst] at hf2
        cases hf2
  · have hst2 : s.started = true := by
      cases hb : s.started
      · exact absurd hb hst
      · rfl
    have hne : evs ≠ [] := hsn hst2
    have hexp : enqueue now n s = scheduleList now [pcmDuration n] s := by
      unfold enqueue
      dsimp only
      rw [if_neg hcond, if_neg hst, scheduleList_singleton]
    rw [hexp]
    have hspec := scheduleList_spec now [pcmDuration n] s evs hctx
      (by
        intro x hx
        simp only [List.mem_singleton] at hx
        subst hx
        exact hdpos)
      hlast
      (fun h0 => absurd h0 hne)
      hchain hanch hhead
    obtain ⟨hch, han, hhd, hlst, hn0⟩ := hspec
    have hflags := scheduleList_flags now [pcmDuration n] s
    refine ⟨hflags.1.trans hctx, hflags.2.1.trans hdes, ?_, hch, han, hhd, hlst, ?_, ?_⟩
    · rw [hflags.2.2.2]
      exact hbuf
    · intro _ h0
      exact hne (List.append_eq_nil.mp h0).1
    · intro hf
      exfalso
      rw [hflags.2.2.1, hst2] at hf
      cases hf

/-- A whole run of `enqueue` calls with positive sample counts preserves
the invariant. -/
theorem runEnq_inv (ops : List (ℚ × ℕ)) :
    ∀ (s : EngineState) (evs : List Sched), EngInv s evs →
    (∀ p ∈ ops, 0 < p.2) →
    EngInv (runEnq s ops).1 (evs ++ (runEnq s ops).2) := by
  induction ops with
  | nil =>
    intro s evs hinv _
    simpa [runEnq] using hinv
  | cons op rest ih =>
    intro s evs hinv hpos
    obtain ⟨tnow, tn⟩ := op
    have h1 := enqueue_inv tnow tn s evs hinv (hpos (tnow, tn) (List.mem_cons_self _ rest))
    have h2 := ih (enqueue tnow tn s).1 (evs ++ (enqueue tnow tn s).2) h1
      (fun p hp => hpos p (List.mem_cons_of_mem _ hp))
    have hexp : runEnq s ((tnow, tn) :: rest)
        = ((runEnq (enqueue tnow tn s).1 rest).1,
           (enqueue tnow tn s).2 ++ (runEnq (enqueue tnow tn s).1 rest).2) := rfl
    rw [hexp, ← List.append_assoc]
    exact h2

/-- The invariant holds for the freshly initialised engine with an empty
event log. -/
theorem engInv_init : EngInv engineInit [] := by
  refine ⟨rfl, rfl, ?_, List.chain'_nil, ?_, ?_, ?_, ?_, fun _ => rfl⟩
  · intro d hd
    simp [engineInit] at hd
  · intro e he
    simp at he
  · intro e he
    simp at he
  · intro e he
    simp at he
  · intro h
    simp [engineInit] at h

/-- C4: over any sequence of `enqueue` calls from a fresh engine without a
`clear()` (arbitrary clock readings, positive chunk sizes), the scheduled
start times are strictly increasing and contiguous — each start equals the
previous start plus the previous duration — except that a chunk scheduled
through the underflow re-anchor starts at its own clock reading plus 50 ms
instead, and the very first chunk after pre-roll starts at its clock
reading plus 50 ms. -/
theorem c4_chunk_ordering (ops : List (ℚ × ℕ)) (hpos : ∀ p ∈ ops, 0 < p.2) :
    List.Chain' chunkStep (runEnq engineInit ops).2 ∧
    (∀ e ∈ (runEnq engineInit ops).2, e.reanchored = true → e.start = e.now + 1/20) ∧
    (∀ e, ((runEnq engineInit ops).2).head? = some e →
      e.start = e.now + 1/20 ∧ e.reanchored = false) := by
  have h := runEnq_inv ops engineInit [] engInv_init hpos
  simp only [List.nil_append] at h
  exact ⟨h.chain, h.anchors, h.headAnchor⟩

/-- Witness for C4 on a four-chunk trace whose last chunk arrives after a
long stall (so the underflow re-anchor fires). -/
theorem c4_witness :
    (∀ p ∈ ([((0 : ℚ), 240), ((0 : ℚ), 240), ((0 : ℚ), 240), ((10 : ℚ), 240)] :
        List (ℚ × ℕ)), 0 < p.2) ∧
    (List.Chain' chunkStep
       (runEnq engineInit [((0 : ℚ), 240), ((0 : ℚ), 240), ((0 : ℚ), 240), ((10 : ℚ), 240)]).2 ∧
     (∀ e ∈ (runEnq engineInit
         [((0 : ℚ), 240), ((0 : ℚ), 240), ((0 : ℚ), 240), ((10 : ℚ), 240)]).2,
       e.reanchored = true → e.start = e.now + 1/20) ∧
     (∀ e, ((runEnq engineInit
         [((0 : ℚ), 240), ((0 : ℚ), 240), ((0 : ℚ), 240), ((10 : ℚ), 240)]).2).head? = some e →
       e.start = e.now + 1/20 ∧ e.reanchored = false)) :=
  ⟨by decide, c4_chunk_ordering _ (by decide)⟩

end VoicePipeline
